import Mathlib

/-!
Verification development for the image-compressor core (`tpys.py`).

The embedding models the compression core of `ImageCompressorCore`:

* `binary_compress` / `binLoopF` — the binary search over JPEG quality
  (`_binary_compress`, source lines 81-111);
* `compressLoop` — the adaptive downscale-and-recompress loop inside
  `process_single_image` (source lines 167-191);
* `safe_replace` — the retrying file replacement (`_safe_replace`,
  source lines 38-51), with the guarded remove and the replace of each
  attempt as separate fallible operations and an explicit operation trace;
* `process_single_image` — the per-file pipeline (source lines 113-236),
  modelled as a pure function from a configuration and an environment that
  fixes the outcome of every external call (file sizes, decode results,
  encoder output, filesystem success bits) to the ordered list of observable
  events (log lines and filesystem effects);
* `wrapper` — the scheduler-side counting wrapper (source lines 499-505).

Unit conventions.  The Python code measures sizes in kilobytes as floats
(`os.path.getsize(p) / 1024`).  Division by 1024 is exact in binary floating
point, so every comparison between two sizes, or between a size and the
integer `target_size_kb`, is exact; the model therefore keeps sizes in BYTES
as naturals and scales comparisons against the target by 1024:
`size_kb <= target` becomes `sizeB ≤ 1024 * target`, and
`size_kb > target` becomes `1024 * target < sizeB`.
The 5% tolerance check `final_s <= target * 1.05` becomes
`20 * finalB ≤ 21 * 1024 * target` (= `21504 * target`); the float constant
1.05 is modelled by the exact rational 21/20.
A failed encode attempt (`float('inf')` in the code) is modelled by `⊤` in
`WithTop ℕ`, which orders against finite sizes exactly as the IEEE infinity
does against finite floats.

An encoder is an abstract function `ℕ → WithTop ℕ` from the JPEG quality
parameter to the byte size written to the scratch file (`⊤` = the save call
raised).  Saving the same image at the same quality is deterministic in the
model, matching PIL for a fixed image.
-/

/-- Result state of the quality binary search.  `high`, `bestQ`, `found` are
the Python variables `high`, `best_q`, `found_size` at loop exit.  `iters`,
`probes` and `outOfFuel` are proof instrumentation: the number of loop
iterations executed, the list of midpoint qualities probed (in order), and
whether the executable model ran out of fuel before the loop condition
`low <= high` failed (the termination theorem shows this never happens from
the initial bounds). -/
structure BinState where
  high : ℕ
  bestQ : ℕ
  found : WithTop ℕ
  iters : ℕ
  probes : List ℕ
  outOfFuel : Bool
  deriving DecidableEq

/-- The `while low <= high` loop of `_binary_compress` (source lines 87-102),
with sizes in bytes and the target in KB.  `enc q` is the byte size produced
by `img.save(tmp_path, quality=q, ...)`.  Per iteration: probe
`mid = (low + high) / 2`; record the probe as best candidate if its size is
strictly below both the best size so far and the ceiling; then shrink
`high` to `mid - 1` if the size exceeds the target, else raise `low` to
`mid + 1`.  Fuel only bounds the recursion depth of the model; the loop
condition is checked first, exactly as in the source.  All reachable calls
have `1 ≤ low`, so the natural subtraction in `mid - 1` is exact. -/
def binLoopF (enc : ℕ → WithTop ℕ) (target : ℕ) (ceiling : WithTop ℕ) :
    ℕ → ℕ → ℕ → ℕ → WithTop ℕ → BinState
  | 0, low, high, bestQ, found =>
      if high < low then ⟨high, bestQ, found, 0, [], false⟩
      else ⟨high, bestQ, found, 0, [], true⟩
  | fuel + 1, low, high, bestQ, found =>
      if high < low then ⟨high, bestQ, found, 0, [], false⟩
      else
        let mid := (low + high) / 2
        let size := enc mid
        let found' := if size < found ∧ size < ceiling then size else found
        let bestQ' := if size < found ∧ size < ceiling then mid else bestQ
        let r :=
          if ((1024 * target : ℕ) : WithTop ℕ) < size then
            binLoopF enc target ceiling fuel low (mid - 1) bestQ' found'
          else
            binLoopF enc target ceiling fuel (mid + 1) high bestQ' found'
        { r with iters := r.iters + 1, probes := mid :: r.probes }

/-- `MIN_Q` of the source (line 23). -/
def MIN_Q : ℕ := 10

/-- The search state at loop exit: the source runs the loop from
`low = MIN_Q = 10`, `high = 95`, `best_q = 95`, `found_size = inf`.
Fuel 86 covers the worst case, `high + 1 - low = 86` iterations. -/
def binSearchExit (enc : ℕ → WithTop ℕ) (target : ℕ) (ceiling : WithTop ℕ) :
    BinState :=
  binLoopF enc target ceiling 86 MIN_Q 95 95 ⊤

/-- The quality of the authoritative final encode:
`max(self.MIN_Q, high)` (source line 106). -/
def finalQuality (enc : ℕ → WithTop ℕ) (target : ℕ) (ceiling : WithTop ℕ) :
    ℕ :=
  max MIN_Q (binSearchExit enc target ceiling).high

/-- The 5% tolerance check `final_s <= self.target_size_kb * 1.05`
(source line 108) with sizes in bytes: `20 * finalB ≤ 21504 * target`;
a raised final save (`⊤`) fails the check, matching the `except` branch
that returns `(inf, False)`. -/
def tolOk (fs : WithTop ℕ) (target : ℕ) : Bool :=
  WithTop.recTopCoe false (fun b => decide (20 * b ≤ 21504 * target)) fs

/-- `_binary_compress` (source lines 81-111): run the quality binary search,
then re-encode once at `max(MIN_Q, high)` and return that size together with
the tolerance flag.  If the final save raises, the result is
`(⊤, false)` — here `enc` at the final quality returning `⊤` — matching the
`return float('inf'), False` branch. -/
def binary_compress (enc : ℕ → WithTop ℕ) (target : ℕ) (ceiling : WithTop ℕ) :
    WithTop ℕ × Bool :=
  let fs := enc (finalQuality enc target ceiling)
  (fs, tolOk fs target)

/-- Abstract decoded image: dimensions, LANCZOS resampling, RGB conversion,
and the JPEG encoder, together with the fact that resampling to `(w, h)`
yields an image of exactly those dimensions. -/
structure ImgModel (α : Type) where
  dims : α → ℕ × ℕ
  resize : α → ℕ → ℕ → α
  toRGB : α → α
  enc : α → ℕ → WithTop ℕ
  dims_resize : ∀ a w h, dims (resize a w h) = (w, h)

/-- `MIN_DIMENSION` of the source (line 25). -/
def MIN_DIMENSION : ℕ := 50

/-- `MAX_ATTEMPTS` of the source (line 26). -/
def MAX_ATTEMPTS : ℕ := 5

/-- The adaptive loop of `process_single_image`, step 8 (source lines
167-191): at most `MAX_ATTEMPTS` rounds of `_binary_compress`; stop when the
tolerance flag is set, or auto-resize is disabled, or the next dimensions
`int(w * 0.9), int(h * 0.9)` (exactly `9*w/10, 9*h/10` for all realistic
dimensions) would drop below `MIN_DIMENSION`; otherwise shrink and retry.
Returns the final image, the last `(size, ok)` pair, and the ordered list of
dimension pairs the image was resized to (the resize trace).  The
accumulator `last` models the Python locals `fs, ok` surviving loop exit;
the fuel-0 case is reached only after an iteration has stored them. -/
def compressLoop (M : ImgModel α) (target : ℕ) (ceiling : WithTop ℕ)
    (auto : Bool) :
    ℕ → α → WithTop ℕ × Bool → α × (WithTop ℕ × Bool) × List (ℕ × ℕ)
  | 0, curr, last => (curr, last, [])
  | fuel + 1, curr, _ =>
      let r := binary_compress (M.enc curr) target ceiling
      if r.2 then (curr, r, [])
      else if auto = false then (curr, r, [])
      else
        let nw := 9 * (M.dims curr).1 / 10
        let nh := 9 * (M.dims curr).2 / 10
        if nw < MIN_DIMENSION ∨ nh < MIN_DIMENSION then (curr, r, [])
        else
          let rest := compressLoop M target ceiling auto fuel
            (M.resize curr nw nh) r
          (rest.1, rest.2.1, (nw, nh) :: rest.2.2)

/-- ASCII lowercasing of one character, the fragment of `str.lower()` that
matters for extension tests. -/
def lowerChar (c : Char) : Char :=
  if 'A' ≤ c ∧ c ≤ 'Z' then Char.ofNat (c.toNat + 32) else c

/-- The characters of a lowercased `.jpg` suffix. -/
def jpgExt : List Char := ['.', 'j', 'p', 'g']

/-- The characters of a lowercased `.jpeg` suffix. -/
def jpegExt : List Char := ['.', 'j', 'p', 'e', 'g']

/-- `path.lower().endswith(('.jpg', '.jpeg'))` (source line 155); paths are
modelled as their character lists. -/
def isJpgPath (p : List Char) : Bool :=
  jpgExt.isSuffixOf (p.map lowerChar) || jpegExt.isSuffixOf (p.map lowerChar)

/-- Index of the last occurrence of `c` in `cs` (auxiliary for
`splitextRoot`). -/
def lastIdxOfAux (c : Char) : List Char → ℕ → Option ℕ → Option ℕ
  | [], _, acc => acc
  | x :: xs, i, acc =>
      lastIdxOfAux c xs (i + 1) (if x = c then some i else acc)

/-- Index of the last occurrence of `c` in `cs`, if any. -/
def lastIdxOf (cs : List Char) (c : Char) : Option ℕ :=
  lastIdxOfAux c cs 0 none

/-- The root part of `os.path.splitext(path)` (posix rules): if the last dot
lies strictly after the last separator and some character of the basename
before the dot is not itself a dot (leading dots never start an extension),
the root is everything before that dot; otherwise the whole path. -/
def splitextRoot (p : List Char) : List Char :=
  match lastIdxOf p '.' with
  | none => p
  | some d =>
      let base : ℕ := match lastIdxOf p '/' with
        | none => 0
        | some i => i + 1
      let gtSep : Bool := match lastIdxOf p '/' with
        | none => true
        | some i => decide (i < d)
      let hasStem : Bool :=
        (List.range' base (d - base)).any (fun j => p.getD j '.' != '.')
      if gtSep && hasStem then p.take d else p

/-- `out_path = os.path.splitext(path)[0] + '.jpg'` (source line 194). -/
def outPath (p : List Char) : List Char :=
  splitextRoot p ++ jpgExt

/-- Filesystem operations performed by `_safe_replace`.  `removedDst` is a
successful `os.remove(dst)` (the file at the destination path is deleted);
`replacedDst` is a successful `os.replace(src, dst)` (the new file is
installed at the destination); `sleep` is the `time.sleep(0.2)` backoff;
`chmod` is an attribute-clearing call — listed in the alphabet so that its
absence from every trace is expressible (lines 38-51 call only
`os.path.exists`, `os.remove`, `os.replace` and `time.sleep`). -/
inductive ROp where
  | removedDst : ROp
  | replacedDst : ROp
  | sleep : ROp
  | chmod : ROp
  deriving DecidableEq

/-- The retry loop of `_safe_replace` (source lines 40-51): `n` attempts
remaining, current attempt index `k`, `dstEx` whether the destination file
currently exists.  Attempt `k`: if the destination exists, try
`os.remove(dst)` (`rmR k = true` means it raises); if the remove succeeded
(destination gone from now on), try `os.replace(src, dst)` (`rpR k = true`
means it raises); on success return `True`; on any raise, sleep and retry if
a later attempt remains (`attempt < 4`), else fall through to
`return False`. -/
def safeReplaceAux (rmR rpR : ℕ → Bool) : ℕ → Bool → ℕ → Bool × List ROp
  | _, _, 0 => (false, [])
  | k, dstEx, n + 1 =>
      if dstEx then
        if rmR k then
          if n = 0 then (false, [])
          else
            let rest := safeReplaceAux rmR rpR (k + 1) dstEx n
            (rest.1, ROp.sleep :: rest.2)
        else
          if rpR k then
            if n = 0 then (false, [ROp.removedDst])
            else
              let rest := safeReplaceAux rmR rpR (k + 1) false n
              (rest.1, ROp.removedDst :: ROp.sleep :: rest.2)
          else (true, [ROp.removedDst, ROp.replacedDst])
      else
        if rpR k then
          if n = 0 then (false, [])
          else
            let rest := safeReplaceAux rmR rpR (k + 1) dstEx n
            (rest.1, ROp.sleep :: rest.2)
        else (true, [ROp.replacedDst])

/-- `_safe_replace` (source lines 38-51): 5 total attempts starting at
attempt 0, destination-existence state threaded through the attempts. -/
def safe_replace (dstEx : Bool) (rmR rpR : ℕ → Bool) : Bool × List ROp :=
  safeReplaceAux rmR rpR 0 dstEx 5

/-- The per-run configuration of `ImageCompressorCore.__init__` that the
pipeline reads: target size in KB, backup flag, auto-resize flag, long-edge
limit in pixels (0 = unlimited). -/
structure Config where
  targetKB : ℕ
  backup : Bool
  autoResize : Bool
  maxDim : ℕ

/-- Environment of one `process_single_image` call: the decoded-image model
and the outcome of every external call the pipeline makes.  `clearOk` is the
result of `_clear_readonly`; `initSize` is `os.path.getsize(path)` in bytes
(`none` = the call raised); `decoded` is the opened image (`none` = open or
load raised); `origFormat` is the string the code stores in
`original_format` (assigned at source line 136 and never read afterwards);
`bakExists` is `os.path.exists(path + ".bak")`; `backupOk` is whether
`shutil.copy2` succeeds; `outExists` is whether a file already exists at
`out_path` when `_safe_replace` runs; `removeRaises k` / `replaceRaises k`
are whether `os.remove` / `os.replace` raise on the k-th replace attempt. -/
structure Env (α : Type) where
  M : ImgModel α
  clearOk : Bool
  initSize : Option ℕ
  decoded : Option α
  origFormat : String
  bakExists : Bool
  backupOk : Bool
  outExists : Bool
  removeRaises : ℕ → Bool
  replaceRaises : ℕ → Bool

/-- Observable events of one job, in program order: log lines and
filesystem effects.  `removedOut` / `installed` / `sleepFS` / `chmodOut`
mirror the `ROp` trace of `_safe_replace` at the destination `out_path`;
`deleteOriginal` is the entry into step 11, the removal of the original
file after a successful replace. -/
inductive Ev where
  | permError : Ev
  | readError : Ev
  | openError : Ev
  | resizedLongEdge : ℕ → ℕ → Ev
  | skip : Ev
  | backupMade : Ev
  | backupFail : Ev
  | shrink : ℕ → ℕ → Ev
  | removedOut : Ev
  | installed : Ev
  | sleepFS : Ev
  | chmodOut : Ev
  | saveFailed : Ev
  | deleteOriginal : Ev
  deriving DecidableEq

/-- Rendering of a `_safe_replace` operation as a pipeline event. -/
def evOfROp : ROp → Ev
  | ROp.removedDst => Ev.removedOut
  | ROp.replacedDst => Ev.installed
  | ROp.sleep => Ev.sleepFS
  | ROp.chmod => Ev.chmodOut

/-- The events of one non-skipped job that precede the inspection of the
`_safe_replace` outcome: long-edge resize log, backup events, shrink logs,
and the `_safe_replace` operation trace, in program order.  The scratch-file
cleanup and `gc.collect()` of the `finally` block touch no observable output
file and are not recorded. -/
def preEvs (needResize : Bool) (nw nh : ℕ) (doBackup backupOk : Bool)
    (shrinks : List (ℕ × ℕ)) (ops : List ROp) : List Ev :=
  (if needResize then [Ev.resizedLongEdge nw nh] else []) ++
    (if doBackup then (if backupOk then [Ev.backupMade] else [Ev.backupFail])
      else []) ++
    shrinks.map (fun q => Ev.shrink q.1 q.2) ++
    ops.map evOfROp

/-- Steps 4-11 of `process_single_image` (source lines 141-214), after the
permission check, size read and decode succeeded.  In source order: RGB
conversion; long-edge resize (`ratio = max_dimension / max(w, h)`, new
dimensions `int(w * ratio), int(h * ratio)`, modelled by exact natural
division); skip check
(`is_jpg and not is_resized and init_s <= target_size_kb`); optional backup;
the adaptive compression loop with first ceiling
`inf if (is_resized or not is_jpg) else init_s`; `_safe_replace` onto
`out_path`; deletion of the original when it differs from `out_path`. -/
def processBody (cfg : Config) (env : Env α) (path : List Char) (initB : ℕ)
    (img0 : α) : List Ev :=
  let img := env.M.toRGB img0
  let w := (env.M.dims img).1
  let h := (env.M.dims img).2
  let needResize : Bool :=
    decide (0 < cfg.maxDim) && decide (cfg.maxDim < max w h)
  let nw := w * cfg.maxDim / max w h
  let nh := h * cfg.maxDim / max w h
  let img2 := if needResize then env.M.resize img nw nh else img
  let is_jpg := isJpgPath path
  if is_jpg && !needResize && decide (initB ≤ 1024 * cfg.targetKB) then
    (if needResize then [Ev.resizedLongEdge nw nh] else []) ++ [Ev.skip]
  else
    let ceiling : WithTop ℕ :=
      if needResize || !is_jpg then ⊤ else (initB : WithTop ℕ)
    let lr := compressLoop env.M cfg.targetKB ceiling cfg.autoResize
      MAX_ATTEMPTS img2 (⊤, false)
    let sr := safe_replace env.outExists env.removeRaises env.replaceRaises
    let pre := preEvs needResize nw nh (cfg.backup && !env.bakExists)
      env.backupOk lr.2.2 sr.2
    if sr.1 then
      pre ++ (if path = outPath path then [] else [Ev.deleteOriginal])
    else
      pre ++ [Ev.saveFailed]

/-- `process_single_image` (source lines 113-236) as a trace function:
permission check (step 1), size read (step 2), decode (step 3), then the
body. -/
def process_single_image (cfg : Config) (env : Env α) (path : List Char) :
    List Ev :=
  if env.clearOk = false then [Ev.permError]
  else
    match env.initSize with
    | none => [Ev.readError]
    | some initB =>
      match env.decoded with
      | none => [Ev.openError]
      | some img0 => processBody cfg env path initB img0

/-- The scheduler-side `wrapper` (source lines 499-505) threaded through the
counters `(processed_count, failed_count)`: `process_single_image` handles
all its errors internally and returns normally (it is a total function, as
the Python body catches every exception), so the wrapper always increments
`processed_count` and never touches `failed_count`. -/
def wrapper (cfg : Config) (env : Env α) (path : List Char)
    (processed failed : ℕ) : (ℕ × ℕ) × List Ev :=
  ((processed + 1, failed), process_single_image cfg env path)

/-- Concrete image model over bare dimension pairs, used to evaluate the
pipeline on closed inputs: the image is its dimensions, resampling replaces
them, RGB conversion is the identity, and the encoder is a parameter. -/
def natImgModel (e : ℕ × ℕ → ℕ → WithTop ℕ) : ImgModel (ℕ × ℕ) where
  dims := fun a => a
  resize := fun _ w h => (w, h)
  toRGB := fun a => a
  enc := e
  dims_resize := fun _ _ _ => rfl

/-- Encoder writing the same byte size at every quality. -/
def encConst (b : ℕ) : ℕ × ℕ → ℕ → WithTop ℕ := fun _ _ => (b : WithTop ℕ)

/-- Encoder for the C1 counterexample: 10 KB at quality 52, 90 KB at
quality 74, 200 KB elsewhere. -/
def c1enc : ℕ → WithTop ℕ := fun q =>
  if q = 52 then ((10240 : ℕ) : WithTop ℕ)
  else if q = 74 then ((92160 : ℕ) : WithTop ℕ)
  else ((204800 : ℕ) : WithTop ℕ)

/-- Encoder writing 50 KB at every quality. -/
def c6enc : ℕ → WithTop ℕ := fun _ => ((51200 : ℕ) : WithTop ℕ)

/-- Target 100 KB, no backup, auto-resize on, no long-edge limit. -/
def cfgStd : Config := ⟨100, false, true, 0⟩

/-- The path photo.jpg. -/
def jpgPathA : List Char := ['p', 'h', 'o', 't', 'o', '.', 'j', 'p', 'g']

/-- The path b.jpg. -/
def jpgPathB : List Char := ['b', '.', 'j', 'p', 'g']

/-- The path a.png. -/
def pngPath : List Char := ['a', '.', 'p', 'n', 'g']

/-- A 50 KB, 800x600 source whose every call succeeds: within the 100 KB
budget.  The stored format string is PNG; with a jpg-named path the job must
skip. -/
def envSkip : Env (ℕ × ℕ) :=
  ⟨natImgModel (encConst 204800), true, some 51200, some (800, 600), "PNG",
    false, true, false, fun _ => false, fun _ => false⟩

/-- A 500 KB, 800x600 source that compresses to 50 KB at once; no file at
the output path, remove and replace never raise. -/
def envDel : Env (ℕ × ℕ) :=
  ⟨natImgModel (encConst 51200), true, some 512000, some (800, 600), "PNG",
    false, true, false, fun _ => false, fun _ => false⟩

/-- A 500 KB source compressing to 50 KB; the destination file exists, its
removal succeeds, but every `os.replace` raises. -/
def envWipe : Env (ℕ × ℕ) :=
  ⟨natImgModel (encConst 51200), true, some 512000, some (640, 480), "JPEG",
    false, true, true, fun _ => false, fun _ => true⟩

/-- An environment whose permission fix `_clear_readonly` fails. -/
def envPerm : Env (ℕ × ℕ) :=
  ⟨natImgModel (encConst 51200), false, some 512000, some (640, 480), "PNG",
    false, true, false, fun _ => false, fun _ => false⟩

/-- The search's `high` bound never rises above its starting value: it is
only ever lowered to `mid - 1` with `mid ≤ high`. -/
theorem binLoopF_high_le (enc : ℕ → WithTop ℕ) (t : ℕ) (c : WithTop ℕ) :
    ∀ fuel low high bq f, (binLoopF enc t c fuel low high bq f).high ≤ high := by
  intro fuel
  induction fuel with
  | zero =>
    intro low high bq f
    simp only [binLoopF]
    split <;> simp
  | succ n ih =>
    intro low high bq f
    simp only [binLoopF]
    split
    · simp
    · rename_i hlh
      have hmid : (low + high) / 2 ≤ high := by omega
      split
      · exact le_trans (ih _ _ _ _) (by omega)
      · exact ih _ _ _ _


/-- The ceiling and the best-candidate accumulators influence neither the
branching of the search nor its exit bound `high`: the ceiling is read only
in the update of `found_size`/`best_q` (source line 96), and those variables
are read only in that same update. -/
theorem binLoopF_ceiling_irrel (enc : ℕ → WithTop ℕ) (t : ℕ)
    (c c' : WithTop ℕ) :
    ∀ fuel low high bq f bq' f',
      (binLoopF enc t c fuel low high bq f).high
        = (binLoopF enc t c' fuel low high bq' f').high := by
  intro fuel
  induction fuel with
  | zero =>
    intro low high bq f bq' f'
    simp only [binLoopF]
    split <;> rfl
  | succ n ih =>
    intro low high bq f bq' f'
    simp only [binLoopF]
    split
    · rfl
    · split
      · exact ih _ _ _ _ _ _
      · exact ih _ _ _ _ _ _

/-- From a positive lower bound, fuel covering the interval width suffices:
the loop reaches `low > high` before the fuel runs out, in at most
`high + 1 - low` iterations. -/
theorem binLoopF_terminates (enc : ℕ → WithTop ℕ) (t : ℕ) (c : WithTop ℕ) :
    ∀ fuel low high bq f, 1 ≤ low → high + 1 - low ≤ fuel →
      (binLoopF enc t c fuel low high bq f).outOfFuel = false ∧
      (binLoopF enc t c fuel low high bq f).iters ≤ high + 1 - low := by
  intro fuel
  induction fuel with
  | zero =>
    intro low high bq f hlow hfuel
    simp only [binLoopF]
    split
    · simp
    · omega
  | succ n ih =>
    intro low high bq f hlow hfuel
    simp only [binLoopF]
    split
    · simp
    · rename_i hlh
      have hmid1 : low ≤ (low + high) / 2 := by omega
      have hmid2 : (low + high) / 2 ≤ high := by omega
      split
      · have h1 : ((low + high) / 2 - 1) + 1 - low ≤ n := by omega
        exact ⟨(ih _ _ _ _ hlow h1).1,
          le_trans (Nat.succ_le_succ (ih _ _ _ _ hlow h1).2) (by omega)⟩
      · have h1 : high + 1 - ((low + high) / 2 + 1) ≤ n := by omega
        exact ⟨(ih _ _ _ _ (by omega) h1).1,
          le_trans (Nat.succ_le_succ (ih _ _ _ _ (by omega) h1).2) (by omega)⟩

/-- The result of `_binary_compress` does not depend on the ceiling: the
final re-encode quality is computed from the ceiling-independent `high`
bound, and the tracked best candidate is dead. -/
theorem binary_compress_irrel (enc : ℕ → WithTop ℕ) (t : ℕ)
    (c c' : WithTop ℕ) :
    binary_compress enc t c = binary_compress enc t c' := by
  have h : finalQuality enc t c = finalQuality enc t c' := by
    unfold finalQuality binSearchExit
    rw [binLoopF_ceiling_irrel enc t c c' 86 MIN_Q 95 95 ⊤ 95 ⊤]
  unfold binary_compress
  rw [h]

/-- Every dimension pair the adaptive loop resizes the image to respects the
minimum-dimension floor: the resize at the end of an iteration is guarded by
`nw < MIN_DIMENSION or nh < MIN_DIMENSION` (source line 186). -/
theorem compressLoop_trace_min {α : Type} (M : ImgModel α) (t : ℕ)
    (c : WithTop ℕ) (auto : Bool) :
    ∀ fuel curr last p, p ∈ (compressLoop M t c auto fuel curr last).2.2 →
      MIN_DIMENSION ≤ p.1 ∧ MIN_DIMENSION ≤ p.2 := by
  intro fuel
  induction fuel with
  | zero =>
    intro curr last p hp
    simp only [compressLoop, List.not_mem_nil] at hp
  | succ n ih =>
    intro curr last p hp
    simp only [compressLoop] at hp
    split at hp
    · simp at hp
    · split at hp
      · simp at hp
      · split at hp
        · simp at hp
        · rename_i hguard
          simp only [List.mem_cons] at hp
          rcases hp with hp | hp
          · subst hp
            constructor <;> omega
          · exact ih _ _ _ hp

/-- The image the adaptive loop returns either is the image it was given or
has both dimensions at least the minimum-dimension floor. -/
theorem compressLoop_result_min {α : Type} (M : ImgModel α) (t : ℕ)
    (c : WithTop ℕ) (auto : Bool) :
    ∀ fuel curr last,
      (compressLoop M t c auto fuel curr last).1 = curr ∨
      (MIN_DIMENSION ≤ (M.dims (compressLoop M t c auto fuel curr last).1).1 ∧
       MIN_DIMENSION ≤ (M.dims (compressLoop M t c auto fuel curr last).1).2) := by
  intro fuel
  induction fuel with
  | zero =>
    intro curr last
    left
    rfl
  | succ n ih =>
    intro curr last
    simp only [compressLoop]
    split
    · left; rfl
    · split
      · left; rfl
      · split
        · left; rfl
        · rename_i hguard
          rcases ih (M.resize curr (9 * (M.dims curr).1 / 10)
              (9 * (M.dims curr).2 / 10))
              (binary_compress (M.enc curr) t c) with h | h
          · right
            simp only [h, M.dims_resize]
            constructor <;> omega
          · right
            exact h

/-- `_safe_replace` performs no attribute-clearing call on any input: its
body (source lines 40-51) consists only of exists/remove/replace/sleep. -/
theorem safeReplaceAux_chmod (rmR rpR : ℕ → Bool) :
    ∀ n k d, ROp.chmod ∉ (safeReplaceAux rmR rpR k d n).2 := by
  intro n
  induction n with
  | zero => intro k d; simp [safeReplaceAux]
  | succ m ih =>
    intro k d
    simp only [safeReplaceAux]
    split_ifs <;> simp_all [List.mem_cons]

/-- At most `n - 1` backoff sleeps happen in `n` attempts: one after every
raising attempt except the last. -/
theorem safeReplaceAux_sleep_le (rmR rpR : ℕ → Bool) :
    ∀ n k d, ((safeReplaceAux rmR rpR k d n).2).count ROp.sleep ≤ n - 1 := by
  intro n
  induction n with
  | zero => intro k d; simp [safeReplaceAux]
  | succ m ih =>
    intro k d
    simp only [safeReplaceAux]
    split_ifs <;> simp_all [List.count_cons] <;>
      have h1 := (ih (k + 1)).1 <;> have h2 := (ih (k + 1)).2 <;> omega

/-- A successful `_safe_replace` run has installed the replacement: its
trace contains the successful `os.replace`. -/
theorem safeReplaceAux_true_replaced (rmR rpR : ℕ → Bool) :
    ∀ n k d, (safeReplaceAux rmR rpR k d n).1 = true →
      ROp.replacedDst ∈ (safeReplaceAux rmR rpR k d n).2 := by
  intro n
  induction n with
  | zero => intro k d h; simp [safeReplaceAux] at h
  | succ m ih =>
    intro k d
    simp only [safeReplaceAux]
    split_ifs <;> simp_all [List.mem_cons]

/-- A failed `_safe_replace` run never installed the replacement: no
successful `os.replace` appears in its trace. -/
theorem safeReplaceAux_false_not_replaced (rmR rpR : ℕ → Bool) :
    ∀ n k d, (safeReplaceAux rmR rpR k d n).1 = false →
      ROp.replacedDst ∉ (safeReplaceAux rmR rpR k d n).2 := by
  intro n
  induction n with
  | zero => intro k d _; simp [safeReplaceAux]
  | succ m ih =>
    intro k d
    simp only [safeReplaceAux]
    split_ifs <;> simp_all [List.mem_cons]

/-- A failed `_safe_replace` run used all its attempts: with `n` attempts
available it slept exactly `n - 1` times. -/
theorem safeReplaceAux_false_sleep (rmR rpR : ℕ → Bool) :
    ∀ n k d, (safeReplaceAux rmR rpR k d n).1 = false →
      ((safeReplaceAux rmR rpR k d n).2).count ROp.sleep = n - 1 := by
  intro n
  induction n with
  | zero => intro k d _; simp [safeReplaceAux]
  | succ m ih =>
    intro k d
    simp only [safeReplaceAux]
    split_ifs <;> simp_all [List.count_cons] <;> omega


/-- No `_safe_replace` operation renders as the step-11 deletion event. -/
theorem evOfROp_ne_del : ∀ op, evOfROp op ≠ Ev.deleteOriginal := by
  intro op
  cases op <;> simp [evOfROp]

/-- The events emitted before the replace outcome is inspected never include
the step-11 deletion of the original. -/
theorem del_not_mem_preEvs (b : Bool) (nw nh : ℕ) (db ok : Bool)
    (l : List (ℕ × ℕ)) (ops : List ROp) :
    Ev.deleteOriginal ∉ preEvs b nw nh db ok l ops := by
  intro h
  simp only [preEvs, List.mem_append, List.mem_map] at h
  rcases h with ((h1 | h2) | h3) | h4
  · revert h1; split <;> simp
  · revert h2; split <;> [split <;> simp; simp]
  · rcases h3 with ⟨q, _, hq⟩
    exact Ev.noConfusion hq
  · rcases h4 with ⟨op, _, hq⟩
    exact evOfROp_ne_del op hq

/-- When the replace succeeded, its `os.replace` success event is among the
pre-inspection events. -/
theorem installed_mem_preEvs (b : Bool) (nw nh : ℕ) (db ok : Bool)
    (l : List (ℕ × ℕ)) (ops : List ROp) (h : ROp.replacedDst ∈ ops) :
    Ev.installed ∈ preEvs b nw nh db ok l ops := by
  have h2 : Ev.installed ∈ List.map evOfROp ops := List.mem_map_of_mem _ h
  unfold preEvs
  exact List.mem_append_right _ h2

/-- If the body of `process_single_image` performs the step-11 deletion of
the original file, then `_safe_replace` succeeded, the output path differs
from the original path, the deletion is the final event, and the replacement
had already been installed (a successful `os.replace` event precedes it). -/
theorem processBody_delete {α : Type} (cfg : Config) (env : Env α)
    (path : List Char) (initB : ℕ) (img0 : α)
    (hdel : Ev.deleteOriginal ∈ processBody cfg env path initB img0) :
    (safe_replace env.outExists env.removeRaises env.replaceRaises).1 = true ∧
    path ≠ outPath path ∧
    ∃ A, processBody cfg env path initB img0 = A ++ [Ev.deleteOriginal] ∧
      Ev.installed ∈ A ∧ Ev.deleteOriginal ∉ A := by
  simp only [processBody] at hdel ⊢
  split at hdel
  · exfalso
    rcases List.mem_append.mp hdel with h1 | h1
    · revert h1; split <;> simp
    · simp at h1
  · rename_i hskip
    split at hdel
    · rename_i hsr
      rcases List.mem_append.mp hdel with h1 | h1
      · exact absurd h1 (del_not_mem_preEvs _ _ _ _ _ _ _)
      · by_cases hp : path = outPath path
        · rw [if_pos hp] at h1
          simp at h1
        · refine ⟨hsr, hp, ?_⟩
          rw [if_neg hskip, if_pos hsr, if_neg hp]
          exact ⟨_, rfl,
            installed_mem_preEvs _ _ _ _ _ _ _
              (safeReplaceAux_true_replaced _ _ _ _ _ hsr),
            del_not_mem_preEvs _ _ _ _ _ _ _⟩
    · exfalso
      rcases List.mem_append.mp hdel with h1 | h1
      · exact absurd h1 (del_not_mem_preEvs _ _ _ _ _ _ _)
      · simp at h1

/-- When the permission check, the size read and the decode succeed,
`process_single_image` runs its body. -/
theorem process_eq_body {α : Type} (cfg : Config) (env : Env α)
    (path : List Char) (initB : ℕ) (img0 : α) (hc : env.clearOk = true)
    (hI : env.initSize = some initB) (hD : env.decoded = some img0) :
    process_single_image cfg env path = processBody cfg env path initB img0 := by
  simp [process_single_image, hc, hI, hD]

/-- The skip check of step 6: a `.jpg`/`.jpeg` path that was not resized for
the long-edge limit and whose size is within budget makes the body emit the
single already-satisfied notice and nothing else. -/
theorem processBody_skip {α : Type} (cfg : Config) (env : Env α)
    (path : List Char) (initB : ℕ) (img0 : α)
    (hj : isJpgPath path = true)
    (hnr : cfg.maxDim = 0 ∨
      max (env.M.dims (env.M.toRGB img0)).1 (env.M.dims (env.M.toRGB img0)).2
        ≤ cfg.maxDim)
    (hb : initB ≤ 1024 * cfg.targetKB) :
    processBody cfg env path initB img0 = [Ev.skip] := by
  rcases hnr with h | h
  · simp [processBody, hj, hb, h]
  · simp [processBody, hj, hb, Nat.not_lt.mpr h]

/-- The stored `original_format` string is dead: the pipeline's observable
behaviour is identical for any two values of it. -/
theorem process_format_irrel {α : Type} (cfg : Config) (env : Env α)
    (path : List Char) (f : String) :
    process_single_image cfg { env with origFormat := f } path
      = process_single_image cfg env path := by
  cases env
  rfl

/-- Claim C1 (corrected): the size `_binary_compress` returns is not the
minimum over the encode attempts that were strictly below the ceiling; the
best-candidate pair `found_size`/`best_q` is tracked but never returned.
What does hold: the returned pair is the final re-encode at
`max(MIN_Q, high)` and is entirely independent of the ceiling argument. -/
theorem C1_theorem (enc : ℕ → WithTop ℕ) (t : ℕ) (c c' : WithTop ℕ) :
    binary_compress enc t c = binary_compress enc t c' ∧
    (binary_compress enc t c).1 = enc (finalQuality enc t c) :=
  ⟨binary_compress_irrel enc t c c', rfl⟩

/-- Claim C1 counterexample: with target 100 KB and unlimited ceiling, the
encoder `c1enc` was probed at quality 52 (an attempt of 10240 bytes,
strictly below the ceiling), yet the search returns 92160 bytes — strictly
larger than that attempt, hence not the minimum over the below-ceiling
attempts. -/
theorem C1_counterexample :
    (binary_compress c1enc 100 ⊤).1 = ((92160 : ℕ) : WithTop ℕ) ∧
    52 ∈ (binSearchExit c1enc 100 ⊤).probes ∧
    c1enc 52 = ((10240 : ℕ) : WithTop ℕ) ∧
    c1enc 52 < (⊤ : WithTop ℕ) ∧
    ¬(binary_compress c1enc 100 ⊤).1 ≤ c1enc 52 := by
  decide

/-- Claim C2 (corrected): whenever the step-11 deletion of the original
happens, `_safe_replace` had succeeded, the output path differs from the
original path, the deletion is the final event, and the successful
`os.replace` installing the replacement precedes it. -/
theorem C2_theorem {α : Type} (cfg : Config) (env : Env α)
    (path : List Char)
    (hdel : Ev.deleteOriginal ∈ process_single_image cfg env path) :
    (safe_replace env.outExists env.removeRaises env.replaceRaises).1 = true ∧
    path ≠ outPath path ∧
    ∃ A, process_single_image cfg env path = A ++ [Ev.deleteOriginal] ∧
      Ev.installed ∈ A ∧ Ev.deleteOriginal ∉ A := by
  by_cases hc : env.clearOk = false
  · simp [process_single_image, hc] at hdel
  · have hc' : env.clearOk = true := by
      revert hc; cases env.clearOk <;> simp
    cases hI : env.initSize with
    | none => simp [process_single_image, hc', hI] at hdel
    | some initB =>
      cases hD : env.decoded with
      | none => simp [process_single_image, hc', hI, hD] at hdel
      | some img0 =>
        rw [process_eq_body cfg env path initB img0 hc' hI hD] at hdel ⊢
        exact processBody_delete cfg env path initB img0 hdel

/-- Claim C2 witness: a PNG input that compresses at once; the deletion of
the original is the final event and the install precedes it. -/
theorem C2_witness :
    (safe_replace envDel.outExists envDel.removeRaises
      envDel.replaceRaises).1 = true ∧
    pngPath ≠ outPath pngPath ∧
    ∃ A, process_single_image cfgStd envDel pngPath
        = A ++ [Ev.deleteOriginal] ∧
      Ev.installed ∈ A ∧ Ev.deleteOriginal ∉ A :=
  C2_theorem cfgStd envDel pngPath (by decide)

/-- Claim C2 counterexample: for an in-place job (`b.jpg`, output path equal
to the input path) whose destination removal succeeds but whose every
`os.replace` raises, `_safe_replace` reports failure (`saveFailed`), the
replacement is never installed, and yet the file at the destination — the
original itself, since `outPath` equals the path — was removed
(`removedOut`).  This refutes the claim that the original is removed only
after the replacement is installed and never when `_safe_replace` fails. -/
theorem C2_counterexample :
    Ev.removedOut ∈ process_single_image cfgStd envWipe jpgPathB ∧
    Ev.installed ∉ process_single_image cfgStd envWipe jpgPathB ∧
    Ev.deleteOriginal ∉ process_single_image cfgStd envWipe jpgPathB ∧
    Ev.saveFailed ∈ process_single_image cfgStd envWipe jpgPathB ∧
    outPath jpgPathB = jpgPathB ∧
    (safe_replace envWipe.outExists envWipe.removeRaises
      envWipe.replaceRaises).1 = false := by
  decide

/-- Claim C3 (confirmed): a lowercased-jpg-suffixed input that the long-edge
limit does not resize and whose on-disk size is within the byte budget makes
the job terminate right after the skip check: the trace is exactly the one
already-satisfied notice and no backup, compression, replacement or deletion
event occurs. -/
theorem C3_theorem {α : Type} (cfg : Config) (env : Env α)
    (path : List Char) (initB : ℕ) (img0 : α)
    (hc : env.clearOk = true) (hI : env.initSize = some initB)
    (hD : env.decoded = some img0) (hj : isJpgPath path = true)
    (hnr : cfg.maxDim = 0 ∨
      max (env.M.dims (env.M.toRGB img0)).1 (env.M.dims (env.M.toRGB img0)).2
        ≤ cfg.maxDim)
    (hb : initB ≤ 1024 * cfg.targetKB) :
    process_single_image cfg env path = [Ev.skip] := by
  rw [process_eq_body cfg env path initB img0 hc hI hD]
  exact processBody_skip cfg env path initB img0 hj hnr hb

/-- Claim C3 witness: photo.jpg at 50 KB with a 100 KB budget and no
long-edge limit is skipped with the single notice. -/
theorem C3_witness :
    process_single_image cfgStd envSkip jpgPathA = [Ev.skip] :=
  C3_theorem cfgStd envSkip jpgPathA 51200 (800, 600) rfl rfl rfl
    (by decide) (Or.inl rfl) (by decide)

/-- Claim C4 (confirmed): every dimension pair the adaptive loop resizes the
image to has both components at least `MIN_DIMENSION`, and the image the
loop returns either is the input image or satisfies the floor; when the
computed next dimensions would fall below the floor the loop stops without
shrinking. -/
theorem C4_theorem {α : Type} (M : ImgModel α) (t : ℕ) (c : WithTop ℕ)
    (auto : Bool) (fuel : ℕ) (curr : α) (last : WithTop ℕ × Bool) :
    (∀ p ∈ (compressLoop M t c auto fuel curr last).2.2,
      MIN_DIMENSION ≤ p.1 ∧ MIN_DIMENSION ≤ p.2) ∧
    ((compressLoop M t c auto fuel curr last).1 = curr ∨
      (MIN_DIMENSION ≤ (M.dims (compressLoop M t c auto fuel curr last).1).1 ∧
        MIN_DIMENSION ≤
          (M.dims (compressLoop M t c auto fuel curr last).1).2)) :=
  ⟨fun p hp => compressLoop_trace_min M t c auto fuel curr last p hp,
    compressLoop_result_min M t c auto fuel curr last⟩

/-- Claim C4 witness: from a 100x100 image with an encoder that always
exceeds the budget, the first resize of the loop is to 90x90, which
respects the floor. -/
theorem C4_witness :
    MIN_DIMENSION ≤ ((90 : ℕ), (90 : ℕ)).1 ∧
    MIN_DIMENSION ≤ ((90 : ℕ), (90 : ℕ)).2 :=
  (C4_theorem (natImgModel (encConst 204800)) 100 ⊤ true 5 (100, 100)
    (⊤, false)).1 (90, 90) (by decide)

/-- Claim C5 (confirmed): the authoritative final artifact is encoded at
quality `max(MIN_Q, high)`, which always lies in the closed range
`[MIN_Q, 95] = [10, 95]`. -/
theorem C5_theorem (enc : ℕ → WithTop ℕ) (t : ℕ) (c : WithTop ℕ) :
    (binary_compress enc t c).1 = enc (finalQuality enc t c) ∧
    MIN_Q ≤ finalQuality enc t c ∧ finalQuality enc t c ≤ 95 :=
  ⟨rfl, le_max_left _ _,
    max_le (by norm_num [MIN_Q]) (binLoopF_high_le enc t c 86 MIN_Q 95 95 ⊤)⟩

/-- Claim C6 (confirmed): lowering the ceiling never increases the returned
final size — in fact the returned result does not depend on the ceiling at
all. -/
theorem C6_theorem (enc : ℕ → WithTop ℕ) (t : ℕ) (c1 c2 : WithTop ℕ)
    (h : c2 ≤ c1) :
    (binary_compress enc t c2).1 ≤ (binary_compress enc t c1).1 := by
  rw [binary_compress_irrel enc t c2 c1]

/-- Claim C6 witness: with ceilings 102400 bytes and unlimited, the returned
sizes are ordered as claimed. -/
theorem C6_witness :
    ((102400 : ℕ) : WithTop ℕ) ≤ (⊤ : WithTop ℕ) ∧
    (binary_compress c6enc 100 ((102400 : ℕ) : WithTop ℕ)).1
      ≤ (binary_compress c6enc 100 ⊤).1 :=
  ⟨le_top, C6_theorem c6enc 100 ⊤ ((102400 : ℕ) : WithTop ℕ) le_top⟩

/-- Claim C7 (corrected): a failing permission check aborts the job with the
single permission-error log and no filesystem side effect, but the
scheduler-side wrapper still increments the processed (success) counter and
leaves the failure counter untouched: such a job is tallied as a success,
not as a failure. -/
theorem C7_theorem {α : Type} (cfg : Config) (env : Env α)
    (path : List Char) (processed failed : ℕ) (hc : env.clearOk = false) :
    process_single_image cfg env path = [Ev.permError] ∧
    wrapper cfg env path processed failed
      = ((processed + 1, failed), [Ev.permError]) := by
  have h1 : process_single_image cfg env path = [Ev.permError] := by
    unfold process_single_image
    rw [if_pos hc]
  exact ⟨h1, by unfold wrapper; rw [h1]⟩

/-- Claim C7 witness: the permission-failing environment yields the single
log event and the counter update (0, 0) to (1, 0). -/
theorem C7_witness :
    process_single_image cfgStd envPerm jpgPathB = [Ev.permError] ∧
    wrapper cfgStd envPerm jpgPathB 0 0 = ((1, 0), [Ev.permError]) :=
  C7_theorem cfgStd envPerm jpgPathB 0 0 rfl

/-- Claim C7 counterexample: on a permission failure the wrapper moves the
counters from (processed, failed) = (0, 0) to (1, 0): the job is counted in
the processed (success) tally and the failure tally is unchanged, refuting
the claim that it is counted in the failure tally rather than the success
tally. -/
theorem C7_counterexample :
    wrapper cfgStd envPerm jpgPathB 0 0 = ((1, 0), [Ev.permError]) := by
  decide

/-- Claim C8 (corrected): `_safe_replace` never performs an
attribute-clearing operation — no `chmod` appears in any trace — but the
retry discipline holds: at most 4 backoff sleeps separate the at most 5
attempts, success is reported exactly when some attempt installs the
replacement, and a failure report means all 5 attempts were used (exactly 4
sleeps). -/
theorem C8_theorem (dstEx : Bool) (rmR rpR : ℕ → Bool) :
    ROp.chmod ∉ (safe_replace dstEx rmR rpR).2 ∧
    ((safe_replace dstEx rmR rpR).2).count ROp.sleep ≤ 4 ∧
    ((safe_replace dstEx rmR rpR).1 = true ↔
      ROp.replacedDst ∈ (safe_replace dstEx rmR rpR).2) ∧
    ((safe_replace dstEx rmR rpR).1 = false →
      ((safe_replace dstEx rmR rpR).2).count ROp.sleep = 4) := by
  refine ⟨safeReplaceAux_chmod rmR rpR 5 0 dstEx,
    safeReplaceAux_sleep_le rmR rpR 5 0 dstEx,
    ⟨safeReplaceAux_true_replaced rmR rpR 5 0 dstEx, ?_⟩,
    safeReplaceAux_false_sleep rmR rpR 5 0 dstEx⟩
  intro hmem
  cases h : (safe_replace dstEx rmR rpR).1 with
  | false => exact absurd hmem (safeReplaceAux_false_not_replaced rmR rpR 5 0 dstEx h)
  | true => rfl

/-- Claim C8 counterexample: with an existing destination whose removal
raises on every attempt (a read-only destination on Windows behaves this
way), `_safe_replace` performs only the four backoff sleeps and fails; no
attribute-clearing operation occurs anywhere in the trace, refuting the
claim that read-only attributes are cleared before removal. -/
theorem C8_counterexample :
    (safe_replace true (fun _ => true) (fun _ => true)).1 = false ∧
    (safe_replace true (fun _ => true) (fun _ => true)).2
      = [ROp.sleep, ROp.sleep, ROp.sleep, ROp.sleep] ∧
    ROp.chmod ∉ (safe_replace true (fun _ => true) (fun _ => true)).2 := by
  decide

/-- Claim C9 (confirmed): whether a job is treated as already-JPEG depends
only on the lowercased path suffix — the decoded format stored in
`original_format` is never consulted (the trace is invariant under changing
it), and a within-budget, unresized input whose path ends in .jpg/.jpeg is
skipped unchanged whatever its decoded content or format string. -/
theorem C9_theorem {α : Type} (cfg : Config) (env : Env α)
    (path : List Char) (f1 f2 : String) (initB : ℕ) (img0 : α)
    (hc : env.clearOk = true) (hI : env.initSize = some initB)
    (hD : env.decoded = some img0) (hj : isJpgPath path = true)
    (hnr : cfg.maxDim = 0 ∨
      max (env.M.dims (env.M.toRGB img0)).1 (env.M.dims (env.M.toRGB img0)).2
        ≤ cfg.maxDim)
    (hb : initB ≤ 1024 * cfg.targetKB) :
    process_single_image cfg { env with origFormat := f1 } path
      = process_single_image cfg { env with origFormat := f2 } path ∧
    process_single_image cfg { env with origFormat := f1 } path
      = [Ev.skip] := by
  constructor
  · exact (process_format_irrel cfg env path f1).trans
      (process_format_irrel cfg env path f2).symm
  · rw [process_format_irrel cfg env path f1]
    rw [process_eq_body cfg env path initB img0 hc hI hD]
    exact processBody_skip cfg env path initB img0 hj hnr hb

/-- Claim C9 witness: the jpg-named 50 KB input is skipped whether the
decoded format string reads PNG or JPEG. -/
theorem C9_witness :
    process_single_image cfgStd { envSkip with origFormat := "PNG" } jpgPathA
      = process_single_image cfgStd { envSkip with origFormat := "JPEG" }
          jpgPathA ∧
    process_single_image cfgStd { envSkip with origFormat := "PNG" } jpgPathA
      = [Ev.skip] :=
  C9_theorem cfgStd envSkip jpgPathA "PNG" "JPEG" 51200 (800, 600) rfl rfl
    rfl (by decide) (Or.inl rfl) (by decide)

/-- Claim C10 (confirmed): from the initial bounds `[10, 95]` the binary
search loop always terminates by falsifying `low <= high` — never by
exhausting the model's fuel — within 86 iterations, whatever the encoder,
target and ceiling. -/
theorem C10_theorem (enc : ℕ → WithTop ℕ) (t : ℕ) (c : WithTop ℕ) :
    (binSearchExit enc t c).outOfFuel = false ∧
    (binSearchExit enc t c).iters ≤ 86 := by
  have h := binLoopF_terminates enc t c 86 MIN_Q 95 95 ⊤
    (by norm_num [MIN_Q]) (by norm_num [MIN_Q])
  exact ⟨h.1, le_trans h.2 (by norm_num [MIN_Q])⟩
